import Mathlib

/-!
Verification of the MakiFlow SSD model and GDBalancer against their
natural-language specification.

The definitions below are a shallow embedding of
`makiflow/models/ssd/ssd_model.py` and
`makiflow/augmentation/segmentation/balancing/gd_balancer.py`.
Real-valued tensor arithmetic is modelled over `ℚ`; TensorFlow graph nodes
that only rearrange, mask, select or sum concrete values are modelled as the
corresponding pure functions on lists.
-/

/-- Center-form default box `(x, y, w, h)` in absolute pixel units, as the rows
of `self.default_boxes_wh` (ssd_model.py, `_default_box_generator`). -/
structure CBox where
  x : ℚ
  y : ℚ
  w : ℚ
  h : ℚ
deriving DecidableEq

/-- Corner-form box `(x1, y1, x2, y2)`, as the rows of `self.default_boxes`
(ssd_model.py lines 62-75). -/
structure Corner where
  x1 : ℚ
  y1 : ℚ
  x2 : ℚ
  y2 : ℚ
deriving DecidableEq

/-- One detector block `dc`: its feature-map width `fmap_shape[1]`, feature-map
height `fmap_shape[2]` and the list of default-box shapes `(w, h)` returned by
`dc.get_dboxes()`. -/
structure DCBlock where
  fw : ℕ
  fh : ℕ
  dboxes : List (ℚ × ℚ)

/-- The data `SSDModel._generate_default_boxes` reads: image width
`input_shape[1]`, image height `input_shape[2]` and the detector blocks
`self.dcs` in list order. -/
structure SSDConfig where
  imgW : ℚ
  imgH : ℚ
  blocks : List DCBlock

/-- The box `_default_box_generator` writes at `boxes[i * width + j]` for shape
`(w, h)` (ssd_model.py lines 126-135): center
`(j * width_per_cell + width_per_cell / 2, i * height_per_cell + height_per_cell / 2)`,
size `(width_per_cell * w, height_per_cell * h)`. -/
def genCell (cw ch : ℚ) (sh : ℚ × ℚ) (i j : ℕ) : CBox :=
  ⟨(j : ℚ) * cw + cw / 2, (i : ℚ) * ch + ch / 2, cw * sh.1, ch * sh.2⟩

/-- `SSDModel._default_box_generator` (ssd_model.py lines 106-138): for each
shape, a `height × width` grid of center-form boxes, row-major (`i` outer, `j`
inner), with all grids stacked shape after shape (`np.vstack(boxes_list)`). -/
def default_box_generator (image_width image_height : ℚ) (width height : ℕ)
    (dboxes : List (ℚ × ℚ)) : List CBox :=
  dboxes.flatMap fun sh =>
    (List.range height).flatMap fun i =>
      (List.range width).map fun j =>
        genCell (image_width / width) (image_height / height) sh i j

/-- `self.default_boxes_wh` after the loop in `_generate_default_boxes`
(ssd_model.py lines 44-60): the per-block generator outputs stacked in block
order. -/
def default_boxes_wh (cfg : SSDConfig) : List CBox :=
  cfg.blocks.flatMap fun b =>
    default_box_generator cfg.imgW cfg.imgH b.fw b.fh b.dboxes

/-- The center-to-corner conversion of ssd_model.py lines 68-71. -/
def cornerOf (c : CBox) : Corner :=
  ⟨c.x - c.w / 2, c.y - c.h / 2, c.x + c.w / 2, c.y + c.h / 2⟩

/-- `SSDModel._correct_default_boxes` applied to one box (ssd_model.py lines
94-104): clip the top-left corner at 0 and the bottom-right corner at
`(max_x, max_y) = (input_shape[1], input_shape[2])`. -/
def clipCorner (maxX maxY : ℚ) (c : Corner) : Corner :=
  ⟨max 0 c.x1, max 0 c.y1, min maxX c.x2, min maxY c.y2⟩

/-- `self.default_boxes` after `_generate_default_boxes` finishes: every
center-form box converted to corner form and clipped. -/
def default_boxes (cfg : SSDConfig) : List Corner :=
  (default_boxes_wh cfg).map fun c => clipCorner cfg.imgW cfg.imgH (cornerOf c)

/-- The per-block summand of `get_dbox`'s first loop:
`feature_map_sizes[i][0] * feature_map_sizes[i][1] * len(dcs[i].get_dboxes())`. -/
def blockSize (b : DCBlock) : ℕ := b.fw * b.fh * b.dboxes.length

/-- `SSDModel.get_dbox` (ssd_model.py lines 79-92): flat offset
`sum of blockSize over previous blocks + dbox_category * fw * fh + fw * x_pos + y_pos`
into `self.default_boxes`.  Out-of-range access raises in Python and is
modelled as `none`. -/
def get_dbox (cfg : SSDConfig) (dc_block_ind dbox_category x_pos y_pos : ℕ) :
    Option Corner :=
  match cfg.blocks[dc_block_ind]? with
  | none => none
  | some blk =>
      (default_boxes cfg)[((cfg.blocks.take dc_block_ind).map blockSize).sum
        + dbox_category * (blk.fw * blk.fh) + blk.fw * x_pos + y_pos]?

/-- The single-block scenario of spec section 8: one detector block with a
`2 × 2` feature map, one shape `(1, 1)`, over a `4 × 4` image. -/
def cfg4 : SSDConfig := ⟨4, 4, [⟨2, 2, [(1, 1)]⟩]⟩

/-- `tf.reduce_sum` of a rank-2 tensor. -/
def tfSum2 (m : List (List ℚ)) : ℚ := (m.map fun r => r.sum).sum

/-- `self._num_positives = tf.reduce_sum(self._input_loc_loss_masks)`
(ssd_model.py line 210). -/
def num_positives (mask : List (List ℚ)) : ℚ := tfSum2 mask

/-- Elementwise product of two rank-2 tensors. -/
def hadamard2 (a b : List (List ℚ)) : List (List ℚ) :=
  List.zipWith (List.zipWith (· * ·)) a b

/-- `ones - self._input_loc_loss_masks` (ssd_model.py lines 397-398, 581-583). -/
def complement2 (mask : List (List ℚ)) : List (List ℚ) :=
  mask.map fun r => r.map fun v => 1 - v

/-- Descending sort, the order in which `tf.nn.top_k` returns its values. -/
def sortDesc (l : List ℚ) : List ℚ := l.insertionSort (· ≥ ·)

/-- `tf.nn.top_k(l, k).values`: the `k` largest entries, in descending order. -/
def topK (l : List ℚ) (k : ℕ) : List ℚ := (sortDesc l).take k

/-- `tf.cast(q, tf.int32)` for the nonnegative floats cast in the loss
builders: truncation toward zero, which on nonnegative values is the floor
(a negative argument would make the subsequent `tf.nn.top_k` fail and does not
arise for the nonnegative counts cast here). -/
def truncQ (q : ℚ) : ℕ := (⌊q⌋).toNat

/-- The rounding the spec's claims use (`round(...)`, half rounded up).  Only
used to compare the spec's claims against the code's truncation. -/
def specRound (q : ℚ) : ℕ := truncQ (q + 1 / 2)

/-- Smooth-L1 applied to one coordinate difference (ssd_model.py lines
221-226): `0.5 * d^2` when `|d| < 1`, else `|d| - 0.5`. -/
def smoothL1 (d : ℚ) : ℚ := if |d| < 1 then 1 / 2 * d ^ 2 else |d| - 1 / 2

/-- One concrete training batch as seen by the loss graphs.  `ce` holds the
values of `self._ce_loss` (the elementwise sparse softmax cross-entropy of
line 207, kept abstract because softmax is transcendental); `mask` is
`self._input_loc_loss_masks`; `gtLoc` is `self._input_loc`; `predLoc` is
`self._train_offsets`; `focalWeights` holds the values of
`tf.pow(ones - sparse_confidences, gamma)` of lines 234-242 (kept abstract
because softmax and `tf.pow` are transcendental; no claim depends on their
values). -/
structure LossBatch where
  ce : List (List ℚ)
  mask : List (List ℚ)
  gtLoc : List (List (List ℚ))
  predLoc : List (List (List ℚ))
  focalWeights : List (List ℚ)

/-- `self._num_positives` for a concrete batch. -/
def np (b : LossBatch) : ℚ := num_positives b.mask

/-- `self.batch_sz`, the number of rows of every batch tensor. -/
def batch_sz (b : LossBatch) : ℕ := b.mask.length

/-- The summed smooth-L1 term of `_build_loc_loss` before division: for every
anchor, the mask value times the sum over the 4 coordinates of
`smoothL1(input_loc - train_offsets)` (ssd_model.py lines 220-230). -/
def maskedSmoothL1Sum (mask : List (List ℚ)) (gt pred : List (List (List ℚ))) : ℚ :=
  (List.zipWith (fun mrow gprow =>
      (List.zipWith (fun m gp =>
          m * ((List.zipWith (fun a c => smoothL1 (a - c)) gp.1 gp.2).sum))
        mrow gprow).sum)
    mask (List.zipWith (fun g p => List.zipWith Prod.mk g p) gt pred)).sum

/-- `self._loc_loss` (ssd_model.py line 230): masked smooth-L1 sum divided by
`num_positives`. -/
def loc_loss (b : LossBatch) : ℚ := maskedSmoothL1Sum b.mask b.gtLoc b.predLoc / np b

/-- `self._focal_loss` (ssd_model.py line 243):
`tf.reduce_sum(focal_weights * self._ce_loss) / self._num_positives`. -/
def focal_conf_loss (b : LossBatch) : ℚ :=
  tfSum2 (hadamard2 b.focalWeights b.ce) / np b

/-- The positive confidence loss shared by the top-k and scan variants
(ssd_model.py lines 389-392 and 573-576):
`tf.reduce_sum(self._ce_loss * mask) / num_positives`. -/
def pos_conf_loss (b : LossBatch) : ℚ :=
  tfSum2 (hadamard2 b.ce b.mask) / np b

/-- `negative_loss_mask * self._ce_loss` of `_build_top_k_negative_loss`
(ssd_model.py lines 397-399). -/
def top_k_neg_values (b : LossBatch) : List (List ℚ) :=
  hadamard2 (complement2 b.mask) b.ce

/-- The `tf.reshape(..., [batch_sz * total_predictions])` flattening of
line 400: row-major concatenation of the negative losses. -/
def negValuesFlat (b : LossBatch) : List ℚ := (top_k_neg_values b).flatten

/-- `num_negatives_to_pick = tf.cast(num_positives * ratio, tf.int32)`
(ssd_model.py lines 404-406): truncation, not rounding. -/
def top_k_count (b : LossBatch) (ratio : ℚ) : ℕ := truncQ (np b * ratio)

/-- `self._top_k_negative_confidence_loss` (ssd_model.py lines 407-411): sum of
the `k` largest flattened negative losses divided by `k` (as a float). -/
def top_k_negative_loss (b : LossBatch) (ratio : ℚ) : ℚ :=
  (topK (negValuesFlat b) (top_k_count b ratio)).sum / ((top_k_count b ratio : ℕ) : ℚ)

/-- `self._ce_loss * negative_loss_mask` of `_build_scan_negative_loss`
(ssd_model.py line 584). -/
def scan_neg_values (b : LossBatch) : List (List ℚ) :=
  hadamard2 b.ce (complement2 b.mask)

/-- `num_negatives = tf.cast(num_positives * ratio, tf.float32)`
(ssd_model.py line 582): a no-op float cast. -/
def scan_num_negatives (b : LossBatch) (ratio : ℚ) : ℚ := np b * ratio

/-- `num_negatives_per_batch = tf.cast(num_negatives / batch_sz, tf.int32)`
(ssd_model.py lines 585-588): truncation, not rounding. -/
def scan_per_row_count (b : LossBatch) (ratio : ℚ) : ℕ :=
  truncQ (scan_num_negatives b ratio / (batch_sz b : ℚ))

/-- `self._scan_negative_confidence_loss` (ssd_model.py lines 590-602).  The
`tf.scan` body ignores its accumulator and returns the sum of the per-row
`tf.nn.top_k`, so the scan output is exactly the per-row map (its
`1.0` starting value is never emitted); the row sums are summed and divided by
`num_negatives`. -/
def scan_negative_loss (b : LossBatch) (ratio : ℚ) : ℚ :=
  (((scan_neg_values b).map fun row =>
      (topK row (scan_per_row_count b ratio)).sum).sum)
    / scan_num_negatives b ratio

/-- The `tf.where(tf.less(num_positives, 1.0), 0.0, total_loss)` guard shared
by the three loss builders (ssd_model.py lines 248-249, 421-422, 612-613). -/
def guardZero (npos total : ℚ) : ℚ := if npos < 1 then 0 else total

/-- Modelled from the spec: `MakiModel._build_final_loss` lives in
`makiflow/base`, which is not part of the provided sources.  The spec describes
it as an optional external final-loss post-processor hook (e.g. regularization
addition) supplied by the surrounding model; it is modelled as an arbitrary
function applied to the guarded total loss. -/
def build_final_loss (hook : ℚ → ℚ) (total : ℚ) : ℚ := hook total

/-- The guarded focal total of `_build_focal_loss` (ssd_model.py lines
247-249). -/
def focal_total (b : LossBatch) (lw : ℚ) : ℚ :=
  guardZero (np b) (focal_conf_loss b + lw * loc_loss b)

/-- `self._final_focal_loss` (ssd_model.py line 250). -/
def final_focal_loss (hook : ℚ → ℚ) (b : LossBatch) (lw : ℚ) : ℚ :=
  build_final_loss hook (focal_total b lw)

/-- The guarded top-k total of `_build_top_k_loss` (ssd_model.py lines
419-422). -/
def top_k_total (b : LossBatch) (lw ratio : ℚ) : ℚ :=
  guardZero (np b) (pos_conf_loss b + top_k_negative_loss b ratio + lw * loc_loss b)

/-- `self._final_top_k_loss` (ssd_model.py line 423). -/
def final_top_k_loss (hook : ℚ → ℚ) (b : LossBatch) (lw ratio : ℚ) : ℚ :=
  build_final_loss hook (top_k_total b lw ratio)

/-- The guarded scan total of `_build_scan_loss` (ssd_model.py lines
610-613). -/
def scan_total (b : LossBatch) (lw ratio : ℚ) : ℚ :=
  guardZero (np b) (pos_conf_loss b + scan_negative_loss b ratio + lw * loc_loss b)

/-- `self._final_scan_loss` (ssd_model.py line 614). -/
def final_scan_loss (hook : ℚ → ℚ) (b : LossBatch) (lw ratio : ℚ) : ℚ :=
  build_final_loss hook (scan_total b lw ratio)

/-- A batch in which the positive mask is identically zero (`num_positives`
is `0 < 1`). -/
def bZero : LossBatch :=
  ⟨[[5, 7]], [[0, 0]], [[[1, 0, 0, 0], [0, 0, 0, 0]]],
   [[[0, 0, 0, 0], [0, 0, 0, 0]]], [[1, 1]]⟩

/-- A `1 × 2` batch with exactly one positive anchor, used against the top-k
claim's `round`. -/
def bOnePos : LossBatch :=
  ⟨[[2, 5]], [[1, 0]], [[[0, 0, 0, 0], [0, 0, 0, 0]]],
   [[[0, 0, 0, 0], [0, 0, 0, 0]]], [[1, 1]]⟩

/-- A `2 × 2` batch with one positive anchor whose hardest negatives sit in a
single batch element, used against the scan claim's `round` and divisor and to
separate the scan loss from the top-k loss. -/
def bScan : LossBatch :=
  ⟨[[0, 3], [4, 5]], [[1, 0], [0, 0]], [[[0, 0, 0, 0], [0, 0, 0, 0]], [[0, 0, 0, 0], [0, 0, 0, 0]]],
   [[[0, 0, 0, 0], [0, 0, 0, 0]], [[0, 0, 0, 0], [0, 0, 0, 0]]], [[1, 1], [1, 1]]⟩

/-- The mutable construction state one mining variant keeps on the model:
`self._set_for_training`, `self._training_vars_are_ready`, the variant's
`*_loss_is_build` flag, the identity of the loss graph (incremented each time
the variant's `_build_*_loss` runs), the bound optimizer
(`self._*_optimizer`, identities as naturals since TensorFlow optimizers
compare by object identity), the cached train op `self._*_train_op`
(recorded as the pair of the optimizer it minimizes with and the loss graph it
was built against), and how many times
`tf.variables_initializer(optimizer.variables())` has been run. -/
structure TrainState where
  setForTraining : Bool
  trainingVarsReady : Bool
  lossBuilt : Bool
  lossGraphVersion : ℕ
  optimizer : Option ℕ
  trainOp : Option (ℕ × ℕ)
  optInitCount : ℕ
deriving DecidableEq

/-- `SSDModel._prepare_training_graph` (ssd_model.py lines 186-215): marks the
training tensors ready and resets the variant build flag. -/
def prepare_training_graph (s : TrainState) : TrainState :=
  { s with trainingVarsReady := true, lossBuilt := false }

/-- The model state before any training call. -/
def initialTrainState : TrainState := ⟨false, false, false, 0, none, none, 0⟩

/-- The common body of `_minimize_focal_loss`, `_minimize_top_k_loss` and
`__minimize_scan_loss` (ssd_model.py lines 256-280, 429-453 and 620-644, which
are textually identical up to the variant's field names): set up for training
if needed, prepare the training graph if needed, build the variant loss and
its train op on first use, rebuild only the train op when a different
optimizer identity is supplied, and return the cached train op. -/
def minimize_loss_step (s : TrainState) (opt : ℕ) : TrainState × Option (ℕ × ℕ) :=
  let s1 := if s.setForTraining then s else { s with setForTraining := true }
  let s2 := if s1.trainingVarsReady then s1 else prepare_training_graph s1
  let s3 :=
    if s2.lossBuilt then s2
    else
      { s2 with
          lossBuilt := true
          lossGraphVersion := s2.lossGraphVersion + 1
          optimizer := some opt
          trainOp := some (opt, s2.lossGraphVersion + 1)
          optInitCount := s2.optInitCount + 1 }
  let s4 :=
    if s3.optimizer ≠ some opt then
      { s3 with
          optimizer := some opt
          trainOp := some (opt, s3.lossGraphVersion)
          optInitCount := s3.optInitCount + 1 }
    else s3
  (s4, s4.trainOp)

/-- A Python exception object: its class name and whether its class derives
from `Exception` (for `KeyboardInterrupt`, which derives only from
`BaseException`, this is false). -/
structure PyExc where
  name : String
  isExceptionInstance : Bool
deriving DecidableEq

/-- `except Exception as ex` catches `e` exactly when `e` is an instance of
`Exception`. -/
def caughtByExceptException (e : PyExc) : Bool := e.isExceptionInstance

/-- The guard `if ex is KeyboardInterrupt` (ssd_model.py line 354): `is`
compares object identity, and an exception instance is never the class object
`KeyboardInterrupt`, so the guard is false for every exception instance. -/
def exIsKeyboardInterruptClass (_ : PyExc) : Bool := false

/-- What one `self._session.run` call inside the batch loop does: either
return the batch losses (total, focal/positive, localization) or raise. -/
inductive BatchRun where
  | ok (bt bf bl : ℚ)
  | raises (e : PyExc)
deriving DecidableEq

/-- Whether a batch computation succeeds. -/
def isOkBatch : BatchRun → Bool
  | BatchRun.ok _ _ _ => true
  | BatchRun.raises _ => false

/-- The running exponential-moving-average losses of one epoch
(`loc_loss`, `focal_loss`, `total_loss` in `fit_focal`). -/
structure EpochAcc where
  locL : ℚ
  focalL : ℚ
  totalL : ℚ
deriving DecidableEq

/-- The update `x = 0.1 * batch_x + 0.9 * x` applied to each loss component
(ssd_model.py lines 360-363). -/
def emaStep (acc : EpochAcc) (bt bf bl : ℚ) : EpochAcc :=
  ⟨1 / 10 * bl + 9 / 10 * acc.locL, 1 / 10 * bf + 9 / 10 * acc.focalL,
   1 / 10 * bt + 9 / 10 * acc.totalL⟩

/-- The `Exception('You have raised KeyboardInterrupt exception.')` the dead
re-raise branch would produce (ssd_model.py line 355). -/
def keyboardInterruptReraise : PyExc :=
  ⟨"Exception: You have raised KeyboardInterrupt exception.", true⟩

/-- The losses of the successful batches, in order. -/
def okLosses : List BatchRun → List (ℚ × ℚ × ℚ)
  | [] => []
  | BatchRun.ok bt bf bl :: rest => (bt, bf, bl) :: okLosses rest
  | BatchRun.raises _ :: rest => okLosses rest

/-- Folding the EMA update over a list of batch losses. -/
def emaFold (acc : EpochAcc) : List (ℚ × ℚ × ℚ) → EpochAcc
  | [] => acc
  | (bt, bf, bl) :: rest => emaFold (emaStep acc bt bf bl) rest

/-- The inner batch loop of `fit_focal` (ssd_model.py lines 335-363): run each
batch; an exception caught by `except Exception` is logged and skipped
(`continue`, the dead `ex is KeyboardInterrupt` branch would re-raise); an
exception not caught there escapes the loop.  Also returns the indices of the
batches whose computation was started. -/
def runBatches : List BatchRun → EpochAcc → List ℕ → ℕ →
    Except PyExc EpochAcc × List ℕ
  | [], acc, att, _ => (Except.ok acc, att)
  | BatchRun.ok bt bf bl :: rest, acc, att, idx =>
      runBatches rest (emaStep acc bt bf bl) (att ++ [idx]) (idx + 1)
  | BatchRun.raises e :: rest, acc, att, idx =>
      if caughtByExceptException e then
        if exIsKeyboardInterruptClass e then
          (Except.error keyboardInterruptReraise, att ++ [idx])
        else
          runBatches rest acc (att ++ [idx]) (idx + 1)
      else
        (Except.error e, att ++ [idx])

/-- The per-epoch loss histories `fit_focal` returns (ssd_model.py lines
380-384). -/
structure FitHistory where
  focalLosses : List ℚ
  totalLosses : List ℚ
  locLosses : List ℚ
deriving DecidableEq

/-- Appending one finished epoch's EMA losses to the histories (ssd_model.py
lines 365-367). -/
def appendEpoch (h : FitHistory) (acc : EpochAcc) : FitHistory :=
  ⟨h.focalLosses ++ [acc.focalL], h.totalLosses ++ [acc.totalL],
   h.locLosses ++ [acc.locL]⟩

/-- The epoch loop of `fit_focal` (ssd_model.py lines 326-376): per epoch the
EMA accumulators restart at `0`; if the batch loop finishes, the epoch's
losses are appended; an exception escaping the batch loop is caught by the
epoch-level `except Exception` (line 374) if it is an `Exception` instance
(the epoch's losses are then not appended and the next epoch runs), otherwise
it escapes the epoch loop.  Attempted batches are tagged with their epoch. -/
def runEpochs : List (List BatchRun) → ℕ → FitHistory → List (ℕ × ℕ) →
    FitHistory × List (ℕ × ℕ) × Option PyExc
  | [], _, hist, att => (hist, att, none)
  | ep :: rest, eIdx, hist, att =>
      match runBatches ep ⟨0, 0, 0⟩ [] 0 with
      | (Except.ok acc, batchAtt) =>
          runEpochs rest (eIdx + 1) (appendEpoch hist acc)
            (att ++ batchAtt.map fun j => (eIdx, j))
      | (Except.error e, batchAtt) =>
          if caughtByExceptException e then
            runEpochs rest (eIdx + 1) hist (att ++ batchAtt.map fun j => (eIdx, j))
          else
            (hist, att ++ batchAtt.map fun j => (eIdx, j), some e)

/-- What a call observably does: return normally or propagate an exception. -/
inductive FitOutcome where
  | returned (h : FitHistory)
  | raised (e : PyExc)
deriving DecidableEq

/-- `fit_focal` from the point where the epoch loop is reached (ssd_model.py
lines 325-384; `fit_top_k` lines 498-568 and `fit_scan` lines 690-760 share
this control flow): the whole loop sits in a `try` whose `finally` block
returns the history dictionary, so any exception escaping the epoch loop is
suppressed and the histories accumulated so far are returned. -/
def fit_run (epochs : List (List BatchRun)) : FitOutcome × List (ℕ × ℕ) :=
  match runEpochs epochs 0 ⟨[], [], []⟩ [] with
  | (hist, att, _) => (FitOutcome.returned hist, att)

/-- A run whose single epoch's first batch raises `KeyboardInterrupt` while a
second batch would succeed. -/
def epochsKI : List (List BatchRun) :=
  [[BatchRun.raises ⟨"KeyboardInterrupt", false⟩, BatchRun.ok 1 1 1]]

/-- A two-epoch run whose first epoch's first batch raises
`KeyboardInterrupt`. -/
def epochsKI2 : List (List BatchRun) :=
  [[BatchRun.raises ⟨"KeyboardInterrupt", false⟩, BatchRun.ok 2 2 2],
   [BatchRun.ok 3 3 3]]

/-- Which objective `GDBalancer._build_objective` builds. -/
inductive ObjKind where
  | alpha
  | geo
deriving DecidableEq

/-- The objective tensor `_build_objective` constructs: which normalization it
applies and the `scaled_hcvgs` and `cardinalities` tensors it was built from
(the runtime value also depends on the `dest_v` placeholder fed later). -/
structure ObjectiveSpec where
  kind : ObjKind
  scaled : List ℚ
  cards : List ℚ
deriving DecidableEq

/-- The observable fields of a `GDBalancer` (gd_balancer.py): the cardinality
clip bounds, the constant HCVG matrix `self.vecs` (`hcv_groups.T`), the
cardinalities variable, the scaled vectors `self.scaled_hcvgs`, the built
objective (absent until a valid name is supplied) and the bound optimizer
identity (`None` after `reset`). -/
structure BalancerState where
  minAmount : ℚ
  maxAmount : ℚ
  vecs : List (List ℚ)
  cardinalities : List ℚ
  scaledHcvgs : List ℚ
  objective : Option ObjectiveSpec
  optimizer : Option ℕ
deriving DecidableEq

/-- `tf.matmul(self.vecs, self.cardinalities)` with the cardinalities as a
column vector. -/
def matVecMul (m : List (List ℚ)) (v : List ℚ) : List ℚ :=
  m.map fun row => (List.zipWith (· * ·) row v).sum

/-- `GDBalancer._build_objective` (gd_balancer.py lines 90-98): a valid name
replaces `self.objective`; an unknown name only prints
`Unknowm objective. Call reset with the correct one.` and leaves
`self.objective` untouched. -/
def build_objective (s : BalancerState) (objective : String) : BalancerState :=
  if objective = "alpha" then
    { s with objective := some ⟨ObjKind.alpha, s.scaledHcvgs, s.cardinalities⟩ }
  else if objective = "geo" then
    { s with objective := some ⟨ObjKind.geo, s.scaledHcvgs, s.cardinalities⟩ }
  else s

/-- `GDBalancer.reset` (gd_balancer.py lines 68-88): unconditionally replaces
the cardinalities variable and the scaled vectors, then builds the objective,
then sets `self.optimizer = None`. -/
def balancer_reset (s : BalancerState) (initial_c : List ℚ) (objective : String) :
    BalancerState :=
  let s1 :=
    { s with
        cardinalities := initial_c
        scaledHcvgs := matVecMul s.vecs initial_c }
  let s2 := build_objective s1 objective
  { s2 with optimizer := none }

/-- A balancer in a valid state: one HCVG, cardinalities `[2]`, a built
`alpha` objective and a bound optimizer. -/
def balancer0 : BalancerState :=
  ⟨5, 10000, [[1]], [2], [2], some ⟨ObjKind.alpha, [2], [2]⟩, some 7⟩

/-! ## Helper lemmas on list indexing and flattening -/

theorem flatMap_getElem? {α β : Type _} (l : List α) (f : α → List β) (n : ℕ)
    (hn : n < l.length) (r : ℕ) (hr : r < (f l[n]).length) :
    (l.flatMap f)[(((l.take n).map fun a => (f a).length).sum + r)]? = (f l[n])[r]? := by
  induction l generalizing n with
  | nil => exact absurd hn (by simp)
  | cons a t ih =>
    cases n with
    | zero =>
      simp only [List.take_zero, List.map_nil, List.sum_nil, Nat.zero_add, List.flatMap_cons,
        List.getElem_cons_zero] at hr ⊢
      rw [List.getElem?_append, if_pos hr]
    | succ m =>
      have hm : m < t.length := by simpa using hn
      simp only [List.take_succ_cons, List.map_cons, List.sum_cons, List.flatMap_cons,
        List.getElem_cons_succ] at hr ⊢
      rw [Nat.add_assoc, List.getElem?_append_right (by omega), Nat.add_sub_cancel_left]
      exact ih m hm hr

theorem take_map_const_sum {α : Type _} (l : List α) (c n : ℕ) (h : n ≤ l.length) :
    ((l.take n).map fun _ => c).sum = n * c := by
  have h1 : (l.take n).map (fun _ => c) = List.replicate (l.take n).length c := by
    simpa [Function.const] using List.map_const (l.take n) c
  rw [h1, List.sum_replicate, List.length_take, Nat.min_eq_left h, smul_eq_mul]

theorem default_box_generator_length (W H : ℚ) (fw fh : ℕ) (shapes : List (ℚ × ℚ)) :
    (default_box_generator W H fw fh shapes).length = fw * fh * shapes.length := by
  unfold default_box_generator
  rw [List.length_flatMap]
  have h1 : shapes.map (List.length ∘ fun sh =>
      (List.range fh).flatMap fun i =>
        (List.range fw).map fun j => genCell (W / fw) (H / fh) sh i j) =
      shapes.map fun _ => fh * fw := by
    apply List.map_congr_left
    intro sh _
    simp only [Function.comp_apply, List.length_flatMap]
    have h2 : (List.range fh).map (List.length ∘ fun i =>
        (List.range fw).map fun j => genCell (W / fw) (H / fh) sh i j) =
        (List.range fh).map fun _ => fw := by
      apply List.map_congr_left
      intro i _
      simp
    rw [h2]
    have h3 : (List.range fh).map (fun _ => fw) = List.replicate fh fw := by
      simpa [Function.const] using List.map_const (List.range fh) fw
    rw [h3, List.sum_replicate, smul_eq_mul]
  rw [h1]
  have h4 : shapes.map (fun _ => fh * fw) = List.replicate shapes.length (fh * fw) := by
    simpa [Function.const] using List.map_const shapes (fh * fw)
  rw [h4, List.sum_replicate, smul_eq_mul]
  ring

theorem default_box_generator_getElem? (W H : ℚ) (fw fh : ℕ) (shapes : List (ℚ × ℚ))
    (s i j : ℕ) (hs : s < shapes.length) (hi : i < fh) (hj : j < fw) :
    (default_box_generator W H fw fh shapes)[s * (fh * fw) + (i * fw + j)]? =
      some (genCell (W / fw) (H / fh) shapes[s] i j) := by
  unfold default_box_generator
  have hglen : ∀ sh : ℚ × ℚ, (((List.range fh).flatMap fun i2 =>
      (List.range fw).map fun j2 => genCell (W / fw) (H / fh) sh i2 j2)).length = fh * fw := by
    intro sh
    rw [List.length_flatMap]
    have h2 : (List.range fh).map (List.length ∘ fun i2 =>
        (List.range fw).map fun j2 => genCell (W / fw) (H / fh) sh i2 j2) =
        (List.range fh).map fun _ => fw := by
      apply List.map_congr_left
      intro i2 _
      simp
    have h3 : (List.range fh).map (fun _ : ℕ => fw) = List.replicate fh fw := by
      simpa [Function.const] using List.map_const (List.range fh) fw
    rw [h2, h3, List.sum_replicate, smul_eq_mul]
  have hsum : ((shapes.take s).map fun sh => (((List.range fh).flatMap fun i2 =>
      (List.range fw).map fun j2 => genCell (W / fw) (H / fh) sh i2 j2)).length).sum =
      s * (fh * fw) := by
    have h5 : (shapes.take s).map (fun sh => (((List.range fh).flatMap fun i2 =>
        (List.range fw).map fun j2 => genCell (W / fw) (H / fh) sh i2 j2)).length) =
        (shapes.take s).map fun _ => fh * fw := by
      apply List.map_congr_left
      intro sh _
      exact hglen sh
    rw [h5, take_map_const_sum shapes (fh * fw) s hs.le]
  have hr : i * fw + j < (((List.range fh).flatMap fun i2 =>
      (List.range fw).map fun j2 => genCell (W / fw) (H / fh) shapes[s] i2 j2)).length := by
    rw [hglen]
    have h6 : i * fw + j < (i + 1) * fw := by rw [Nat.succ_mul]; omega
    have h7 : (i + 1) * fw ≤ fh * fw := Nat.mul_le_mul_right fw hi
    omega
  rw [← hsum]
  rw [flatMap_getElem? shapes _ s hs (i * fw + j) hr]
  have hsumr : ((((List.range fh).take i)).map fun i2 =>
      ((List.range fw).map fun j2 => genCell (W / fw) (H / fh) shapes[s] i2 j2).length).sum =
      i * fw := by
    have h8 : (((List.range fh).take i)).map (fun i2 =>
        ((List.range fw).map fun j2 => genCell (W / fw) (H / fh) shapes[s] i2 j2).length) =
        (((List.range fh).take i)).map fun _ => fw := by
      apply List.map_congr_left
      intro i2 _
      simp
    rw [h8, take_map_const_sum (List.range fh) fw i (by simpa using hi.le)]
  have hilen : i < (List.range fh).length := by simpa using hi
  have hrin : j < ((List.range fw).map fun j2 =>
      genCell (W / fw) (H / fh) shapes[s] (List.range fh)[i] j2).length := by
    simpa using hj
  rw [← hsumr, flatMap_getElem? (List.range fh) _ i hilen j hrin]
  rw [List.getElem?_map, List.getElem?_range hj, List.getElem_range]
  rfl

theorem default_boxes_wh_getElem? (cfg : SSDConfig) (b : ℕ) (hb : b < cfg.blocks.length)
    (s i j : ℕ) (hs : s < cfg.blocks[b].dboxes.length)
    (hi : i < cfg.blocks[b].fh) (hj : j < cfg.blocks[b].fw) :
    (default_boxes_wh cfg)[((cfg.blocks.take b).map blockSize).sum
        + (s * (cfg.blocks[b].fh * cfg.blocks[b].fw) + (i * cfg.blocks[b].fw + j))]? =
      some (genCell (cfg.imgW / cfg.blocks[b].fw) (cfg.imgH / cfg.blocks[b].fh)
        (cfg.blocks[b].dboxes[s]) i j) := by
  unfold default_boxes_wh
  have hlen : ∀ blk : DCBlock,
      (default_box_generator cfg.imgW cfg.imgH blk.fw blk.fh blk.dboxes).length =
        blockSize blk := by
    intro blk
    rw [default_box_generator_length]
    rfl
  have hsum : ((cfg.blocks.take b).map fun blk =>
      (default_box_generator cfg.imgW cfg.imgH blk.fw blk.fh blk.dboxes).length).sum =
      ((cfg.blocks.take b).map blockSize).sum := by
    congr 1
    apply List.map_congr_left
    intro blk _
    exact hlen blk
  have hr : s * (cfg.blocks[b].fh * cfg.blocks[b].fw) + (i * cfg.blocks[b].fw + j) <
      (default_box_generator cfg.imgW cfg.imgH cfg.blocks[b].fw cfg.blocks[b].fh
        cfg.blocks[b].dboxes).length := by
    rw [hlen]
    have h6 : i * cfg.blocks[b].fw + j < (i + 1) * cfg.blocks[b].fw := by
      rw [Nat.succ_mul]
      omega
    have h7 : (i + 1) * cfg.blocks[b].fw ≤ cfg.blocks[b].fh * cfg.blocks[b].fw :=
      Nat.mul_le_mul_right _ hi
    have h8 : s * (cfg.blocks[b].fh * cfg.blocks[b].fw) + (i * cfg.blocks[b].fw + j) <
        (s + 1) * (cfg.blocks[b].fh * cfg.blocks[b].fw) := by
      rw [Nat.succ_mul]
      omega
    have h9 : (s + 1) * (cfg.blocks[b].fh * cfg.blocks[b].fw) ≤
        cfg.blocks[b].dboxes.length * (cfg.blocks[b].fh * cfg.blocks[b].fw) :=
      Nat.mul_le_mul_right _ hs
    have h10 : blockSize cfg.blocks[b] =
        cfg.blocks[b].dboxes.length * (cfg.blocks[b].fh * cfg.blocks[b].fw) := by
      unfold blockSize
      ring
    omega
  rw [← hsum, flatMap_getElem? cfg.blocks _ b hb _ hr,
    default_box_generator_getElem? _ _ _ _ _ s i j hs hi hj]

theorem default_boxes_length (cfg : SSDConfig) :
    (default_boxes cfg).length = (cfg.blocks.map blockSize).sum := by
  unfold default_boxes default_boxes_wh
  rw [List.length_map, List.length_flatMap]
  congr 1
  apply List.map_congr_left
  intro blk _
  simp only [Function.comp_apply]
  rw [default_box_generator_length]
  rfl

theorem default_boxes_wh_cfg4 :
    default_boxes_wh cfg4 = [⟨1, 1, 2, 2⟩, ⟨3, 1, 2, 2⟩, ⟨1, 3, 2, 2⟩, ⟨3, 3, 2, 2⟩] := by
  have hr2 : List.range 2 = [0, 1] := rfl
  simp only [default_boxes_wh, cfg4, default_box_generator, genCell, hr2,
    List.flatMap_cons, List.flatMap_nil, List.map_cons, List.map_nil, List.append_nil,
    List.cons_append, List.nil_append]
  norm_num

theorem default_boxes_cfg4 :
    default_boxes cfg4 = [⟨0, 0, 2, 2⟩, ⟨2, 0, 4, 2⟩, ⟨0, 2, 2, 4⟩, ⟨2, 2, 4, 4⟩] := by
  rw [default_boxes, default_boxes_wh_cfg4]
  simp only [List.map_cons, List.map_nil, cornerOf, clipCorner, cfg4, max_def, min_def]
  norm_num

/-- C5: Anchor generation contract.  The generator produces exactly
`fw * fh * len(shapes)` center-form boxes; the box at iteration step
`s * (fh * fw) + (i * fw + j)` (shapes as outer blocks, then row-major with
row `i` outer and column `j` inner) has center
`((j + 0.5) * cellW, (i + 0.5) * cellH)` and size `(cellW * w_s, cellH * h_s)`;
the concatenated anchor set over all detector blocks has length
`sum fw_i * fh_i * num_shapes_i`; and the single-block instance with
`fw = fh = 2`, one shape `(1, 1)` and a `4 × 4` image yields the four anchors
with centers `(1,1), (3,1), (1,3), (3,3)`, each of size `2 × 2`, and corner
boxes `(0,0,2,2), (2,0,4,2), (0,2,2,4), (2,2,4,4)` in that order. -/
theorem c5_anchor_generation_contract :
    (∀ (W H : ℚ) (fw fh : ℕ) (shapes : List (ℚ × ℚ)),
        (default_box_generator W H fw fh shapes).length = fw * fh * shapes.length) ∧
    (∀ (W H : ℚ) (fw fh : ℕ) (shapes : List (ℚ × ℚ)) (s i j : ℕ)
        (hs : s < shapes.length), i < fh → j < fw →
        (default_box_generator W H fw fh shapes)[s * (fh * fw) + (i * fw + j)]? =
          some ⟨((j : ℚ) + 1 / 2) * (W / fw), ((i : ℚ) + 1 / 2) * (H / fh),
                (W / fw) * shapes[s].1, (H / fh) * shapes[s].2⟩) ∧
    (∀ cfg : SSDConfig, (default_boxes cfg).length = (cfg.blocks.map blockSize).sum) ∧
    default_boxes_wh cfg4 = [⟨1, 1, 2, 2⟩, ⟨3, 1, 2, 2⟩, ⟨1, 3, 2, 2⟩, ⟨3, 3, 2, 2⟩] ∧
    default_boxes cfg4 = [⟨0, 0, 2, 2⟩, ⟨2, 0, 4, 2⟩, ⟨0, 2, 2, 4⟩, ⟨2, 2, 4, 4⟩] := by
  refine ⟨default_box_generator_length, ?_, default_boxes_length,
    default_boxes_wh_cfg4, default_boxes_cfg4⟩
  intro W H fw fh shapes s i j hs hi hj
  rw [default_box_generator_getElem? W H fw fh shapes s i j hs hi hj]
  have hcell : genCell (W / fw) (H / fh) shapes[s] i j =
      ⟨((j : ℚ) + 1 / 2) * (W / fw), ((i : ℚ) + 1 / 2) * (H / fh),
        (W / fw) * shapes[s].1, (H / fh) * shapes[s].2⟩ := by
    unfold genCell
    congr 1 <;> ring
  rw [hcell]

/-- Witness for C5 at the concrete single-block configuration. -/
theorem c5_anchor_generation_contract_witness :
    (default_box_generator 4 4 2 2 [((1 : ℚ), (1 : ℚ))]).length = 2 * 2 * 1 ∧
    (default_box_generator 4 4 2 2 [((1 : ℚ), (1 : ℚ))])[0 * (2 * 2) + (0 * 2 + 1)]? =
      some ⟨((1 : ℚ) + 1 / 2) * (4 / 2), ((0 : ℚ) + 1 / 2) * (4 / 2),
            (4 / 2) * 1, (4 / 2) * 1⟩ := by
  constructor
  · exact c5_anchor_generation_contract.1 4 4 2 2 [((1 : ℚ), (1 : ℚ))]
  · have h := c5_anchor_generation_contract.2.1 4 4 2 2 [((1 : ℚ), (1 : ℚ))] 0 0 1
      (by decide) (by decide) (by decide)
    simpa using h

/-- C1 (counterexample): under the claim's convention (third argument `x` a
column index, fourth argument `y` a row index), `get_dbox(0, 0, 1, 0)` on the
single-block `fw = fh = 2`, image `4 × 4` model should return the box the
generator produced for cell (column 1, row 0) — iteration step
`i * fw + j = 0 * 2 + 1 = 1`, corner form `(2, 0, 4, 2)`.  The code computes
flat offset `fw * x + y = 2` and returns `(0, 2, 2, 4)` instead. -/
theorem c1_round_trip_counterexample :
    get_dbox cfg4 0 0 1 0 = some ⟨0, 2, 2, 4⟩ ∧
    (default_boxes cfg4)[0 * 2 + 1]? = some ⟨2, 0, 4, 2⟩ ∧
    ((⟨0, 2, 2, 4⟩ : Corner) ≠ ⟨2, 0, 4, 2⟩) := by
  refine ⟨?_, ?_, by decide⟩
  · rw [show get_dbox cfg4 0 0 1 0 = (default_boxes cfg4)[2]? from rfl, default_boxes_cfg4]
    decide
  · rw [default_boxes_cfg4]
    decide

/-- C1 (amended): the round trip holds with the third and fourth arguments of
`get_dbox` read as (row, column): for every valid block `b`, shape `s`,
`x < fh_b` and `y < fw_b`, `get_dbox(b, s, x, y)` returns exactly the
(corner-form, clipped) box `_default_box_generator` produced for the
feature-map cell with row index `x` and column index `y` and shape `s` of
block `b`; i.e. the flat offset
`sum of fw*fh*k over previous blocks + s*fw*fh + fw*x + y` selects generator
iteration step `(i, j) = (x, y)`, so `x` ranges over rows (`[0, fh)`) and `y`
over columns (`[0, fw)`), not (column, row) as the claim states. -/
theorem c1_get_dbox_round_trip_amended (cfg : SSDConfig) (b s x y : ℕ)
    (hb : b < cfg.blocks.length) (hs : s < cfg.blocks[b].dboxes.length)
    (hx : x < cfg.blocks[b].fh) (hy : y < cfg.blocks[b].fw) :
    get_dbox cfg b s x y =
      some (clipCorner cfg.imgW cfg.imgH (cornerOf
        (genCell (cfg.imgW / cfg.blocks[b].fw) (cfg.imgH / cfg.blocks[b].fh)
          cfg.blocks[b].dboxes[s] x y))) := by
  unfold get_dbox
  rw [List.getElem?_eq_getElem hb]
  show (default_boxes cfg)[((cfg.blocks.take b).map blockSize).sum
      + s * (cfg.blocks[b].fw * cfg.blocks[b].fh) + cfg.blocks[b].fw * x + y]? = _
  have hidx : ((cfg.blocks.take b).map blockSize).sum
      + s * (cfg.blocks[b].fw * cfg.blocks[b].fh) + cfg.blocks[b].fw * x + y =
      ((cfg.blocks.take b).map blockSize).sum
      + (s * (cfg.blocks[b].fh * cfg.blocks[b].fw) + (x * cfg.blocks[b].fw + y)) := by
    ring
  rw [hidx]
  unfold default_boxes
  rw [List.getElem?_map, default_boxes_wh_getElem? cfg b hb s x y hs hx hy]
  rfl

/-- Witness for the amended C1 at the concrete single-block configuration. -/
theorem c1_get_dbox_round_trip_witness : get_dbox cfg4 0 0 1 0 = some ⟨0, 2, 2, 4⟩ := by
  have h := c1_get_dbox_round_trip_amended cfg4 0 0 1 0
    (by decide) (by decide) (by decide) (by decide)
  rw [h]
  simp only [cfg4, genCell, cornerOf, clipCorner, List.getElem_cons_zero, max_def, min_def]
  norm_num

theorem mem_default_boxes_wh (cfg : SSDConfig) (c : CBox) (hc : c ∈ default_boxes_wh cfg) :
    ∃ blk ∈ cfg.blocks, ∃ sh ∈ blk.dboxes, ∃ i j : ℕ, i < blk.fh ∧ j < blk.fw ∧
      c = genCell (cfg.imgW / blk.fw) (cfg.imgH / blk.fh) sh i j := by
  unfold default_boxes_wh default_box_generator at hc
  rw [List.mem_flatMap] at hc
  obtain ⟨blk, hblk, hc⟩ := hc
  rw [List.mem_flatMap] at hc
  obtain ⟨sh, hshm, hc⟩ := hc
  rw [List.mem_flatMap] at hc
  obtain ⟨i, hi, hc⟩ := hc
  rw [List.mem_map] at hc
  obtain ⟨j, hj, hc⟩ := hc
  exact ⟨blk, hblk, sh, hshm, i, j, by simpa using hi, by simpa using hj, hc.symm⟩

/-- C6: every center-form box is converted to corner form via
`(cx - w/2, cy - h/2, cx + w/2, cy + h/2)` and clipped with
`x1 = max(0, x1), y1 = max(0, y1), x2 = min(W, x2), y2 = min(H, y2)`; and for
a positive image size and strictly positive shape ratios every clipped corner
box satisfies `0 ≤ x1 ≤ x2 ≤ W` and `0 ≤ y1 ≤ y2 ≤ H`. -/
theorem c6_corner_conversion_and_clipping (cfg : SSDConfig)
    (hW : 0 < cfg.imgW) (hH : 0 < cfg.imgH)
    (hsh : ∀ blk ∈ cfg.blocks, ∀ sh ∈ blk.dboxes, 0 < sh.1 ∧ 0 < sh.2) :
    ∀ c ∈ default_boxes cfg,
      (∃ cb ∈ default_boxes_wh cfg,
          c = ⟨max 0 (cb.x - cb.w / 2), max 0 (cb.y - cb.h / 2),
               min cfg.imgW (cb.x + cb.w / 2), min cfg.imgH (cb.y + cb.h / 2)⟩) ∧
      0 ≤ c.x1 ∧ c.x1 ≤ c.x2 ∧ c.x2 ≤ cfg.imgW ∧
      0 ≤ c.y1 ∧ c.y1 ≤ c.y2 ∧ c.y2 ≤ cfg.imgH := by
  intro c hc
  unfold default_boxes at hc
  rw [List.mem_map] at hc
  obtain ⟨cb, hcb, hceq⟩ := hc
  subst hceq
  refine ⟨⟨cb, hcb, rfl⟩, ?_⟩
  obtain ⟨blk, hblk, sh, hshm, i, j, hi, hj, hcbeq⟩ := mem_default_boxes_wh cfg cb hcb
  obtain ⟨hw1, hh1⟩ := hsh blk hblk sh hshm
  subst hcbeq
  have hfw : (0 : ℚ) < blk.fw := by
    have : 0 < blk.fw := lt_of_le_of_lt (Nat.zero_le j) hj
    exact_mod_cast this
  have hfh : (0 : ℚ) < blk.fh := by
    have : 0 < blk.fh := lt_of_le_of_lt (Nat.zero_le i) hi
    exact_mod_cast this
  have hcwpos : 0 < cfg.imgW / blk.fw := div_pos hW hfw
  have hchpos : 0 < cfg.imgH / blk.fh := div_pos hH hfh
  have hWcw : (blk.fw : ℚ) * (cfg.imgW / blk.fw) = cfg.imgW := by
    rw [mul_comm, div_mul_cancel₀ _ (ne_of_gt hfw)]
  have hHch : (blk.fh : ℚ) * (cfg.imgH / blk.fh) = cfg.imgH := by
    rw [mul_comm, div_mul_cancel₀ _ (ne_of_gt hfh)]
  have hj1 : (j : ℚ) + 1 ≤ blk.fw := by exact_mod_cast hj
  have hi1 : (i : ℚ) + 1 ≤ blk.fh := by exact_mod_cast hi
  have hjcw : (j : ℚ) * (cfg.imgW / blk.fw) ≤ ((blk.fw : ℚ) - 1) * (cfg.imgW / blk.fw) :=
    mul_le_mul_of_nonneg_right (by linarith) hcwpos.le
  have hich : (i : ℚ) * (cfg.imgH / blk.fh) ≤ ((blk.fh : ℚ) - 1) * (cfg.imgH / blk.fh) :=
    mul_le_mul_of_nonneg_right (by linarith) hchpos.le
  have hjnn : (0 : ℚ) ≤ (j : ℚ) * (cfg.imgW / blk.fw) :=
    mul_nonneg (Nat.cast_nonneg j) hcwpos.le
  have hinn : (0 : ℚ) ≤ (i : ℚ) * (cfg.imgH / blk.fh) :=
    mul_nonneg (Nat.cast_nonneg i) hchpos.le
  have hwpos : 0 < cfg.imgW / blk.fw * sh.1 := mul_pos hcwpos hw1
  have hhpos : 0 < cfg.imgH / blk.fh * sh.2 := mul_pos hchpos hh1
  simp only [genCell, cornerOf, clipCorner]
  refine ⟨le_max_left _ _, ?_, min_le_left _ _, le_max_left _ _, ?_, min_le_left _ _⟩
  · apply max_le
    · exact le_min hW.le (by linarith)
    · apply le_min
      · linarith
      · linarith
  · apply max_le
    · exact le_min hH.le (by linarith)
    · apply le_min
      · linarith
      · linarith

/-- Witness for C6 at the concrete single-block configuration and its first
anchor box. -/
theorem c6_corner_conversion_witness :
    (∃ cb ∈ default_boxes_wh cfg4,
        (⟨0, 0, 2, 2⟩ : Corner) = ⟨max 0 (cb.x - cb.w / 2), max 0 (cb.y - cb.h / 2),
          min cfg4.imgW (cb.x + cb.w / 2), min cfg4.imgH (cb.y + cb.h / 2)⟩) ∧
    0 ≤ (⟨0, 0, 2, 2⟩ : Corner).x1 ∧
    (⟨0, 0, 2, 2⟩ : Corner).x1 ≤ (⟨0, 0, 2, 2⟩ : Corner).x2 ∧
    (⟨0, 0, 2, 2⟩ : Corner).x2 ≤ cfg4.imgW ∧
    0 ≤ (⟨0, 0, 2, 2⟩ : Corner).y1 ∧
    (⟨0, 0, 2, 2⟩ : Corner).y1 ≤ (⟨0, 0, 2, 2⟩ : Corner).y2 ∧
    (⟨0, 0, 2, 2⟩ : Corner).y2 ≤ cfg4.imgH := by
  apply c6_corner_conversion_and_clipping cfg4
  · norm_num [cfg4]
  · norm_num [cfg4]
  · decide
  · rw [default_boxes_cfg4]
    decide

/-- C2 (counterexample): with the final-loss hook modelled from the spec as a
regularization addition (here `+ 1`), a batch with `num_positives = 0 < 1`
yields final focal loss `1`, not `0`: the `tf.where` zero guard is applied
before `_build_final_loss`, so the hook's output — not `0` — is the final
scalar. -/
theorem c2_zero_positive_counterexample :
    np bZero < 1 ∧ final_focal_loss (fun t => t + 1) bZero 1 = 1 ∧ (1 : ℚ) ≠ 0 := by
  have hnp : np bZero = 0 := by norm_num [np, num_positives, tfSum2, bZero]
  refine ⟨by rw [hnp]; norm_num, ?_, by norm_num⟩
  simp only [final_focal_loss, build_final_loss, focal_total, guardZero, hnp]
  norm_num

/-- C2 (amended): for every batch with `num_positives < 1`, the guarded total
loss of each of the three mining variants is exactly `0` before the hook, and
each final loss equals the hook applied to `0` (hence is `0` for every hook
that preserves `0`); no division-by-zero error is produced — the unguarded
quotients are values discarded by the `tf.where` guard (total division in the
embedding). -/
theorem c2_zero_positive_amended (b : LossBatch) (hook : ℚ → ℚ) (lw r : ℚ)
    (h : np b < 1) :
    focal_total b lw = 0 ∧ top_k_total b lw r = 0 ∧ scan_total b lw r = 0 ∧
    final_focal_loss hook b lw = hook 0 ∧ final_top_k_loss hook b lw r = hook 0 ∧
    final_scan_loss hook b lw r = hook 0 := by
  have hg : ∀ t : ℚ, guardZero (np b) t = 0 := fun t => if_pos h
  refine ⟨hg _, hg _, hg _, ?_, ?_, ?_⟩ <;>
    simp only [final_focal_loss, final_top_k_loss, final_scan_loss, build_final_loss,
      focal_total, top_k_total, scan_total, hg]

/-- Witness for the amended C2 at the all-negative batch. -/
theorem c2_zero_positive_witness :
    focal_total bZero 1 = 0 ∧ top_k_total bZero 1 3 = 0 ∧ scan_total bZero 1 3 = 0 ∧
    final_focal_loss id bZero 1 = id 0 ∧ final_top_k_loss id bZero 1 3 = id 0 ∧
    final_scan_loss id bZero 1 3 = id 0 :=
  c2_zero_positive_amended bZero id 1 3 (by norm_num [np, num_positives, tfSum2, bZero])

/-- C3 (counterexample): with one positive anchor and `neg_ratio = 1.5` the
code casts `num_positives * ratio = 1.5` to `int32`, truncating to `1`, so one
negative term contributes — not `round(1.5) = 2` as the claim states. -/
theorem c3_top_k_count_counterexample :
    np bOnePos = 1 ∧
    (topK (negValuesFlat bOnePos) (top_k_count bOnePos (3 / 2))).length = 1 ∧
    specRound (np bOnePos * (3 / 2)) = 2 ∧ (1 : ℕ) ≠ 2 := by
  have hnp : np bOnePos = 1 := by norm_num [np, num_positives, tfSum2, bOnePos]
  have hk : top_k_count bOnePos (3 / 2) = 1 := by
    norm_num [top_k_count, truncQ, hnp]
  refine ⟨hnp, ?_, ?_, by norm_num⟩
  · rw [hk]
    norm_num [topK, sortDesc, negValuesFlat, top_k_neg_values, hadamard2, complement2,
      bOnePos, List.insertionSort, List.orderedInsert]
  · rw [hnp]
    norm_num [specRound, truncQ]
    decide

theorem topK_spec (l : List ℚ) (k : ℕ) (hk : k ≤ l.length) :
    (topK l k).length = k ∧
    (∀ q ∈ topK l k, ∀ q2 ∈ (sortDesc l).drop k, q2 ≤ q) ∧
    (topK l k ++ (sortDesc l).drop k).Perm l := by
  have hsortlen : (sortDesc l).length = l.length :=
    (List.perm_insertionSort _ _).length_eq
  refine ⟨?_, ?_, ?_⟩
  · rw [topK, List.length_take, hsortlen]
    exact min_eq_left hk
  · have hp : List.Pairwise (· ≥ ·) (sortDesc l) := List.sorted_insertionSort _ _
    rw [← List.take_append_drop k (sortDesc l)] at hp
    intro q hq q2 hq2
    exact (List.pairwise_append.mp hp).2.2 q hq q2 hq2
  · rw [topK, List.take_append_drop]
    exact List.perm_insertionSort _ _

/-- C3 (amended): for every batch with `num_positives ≥ 1` and ratio `r`, with
`k = int(num_positives * r)` — truncation toward zero, not `round` — at most
the number of flattened anchors, the top-k variant's negative term selects
exactly `k` negative cross-entropy values, they are the highest-valued ones
over the whole flattened batch (each selected value is at least each
unselected value, and selected plus unselected is a permutation of all the
masked negative values), and the negative loss is their sum divided by that
same `k`. -/
theorem c3_top_k_negative_amended (b : LossBatch) (r : ℚ) (hnp : 1 ≤ np b)
    (hk : top_k_count b r ≤ (negValuesFlat b).length) :
    (topK (negValuesFlat b) (top_k_count b r)).length = top_k_count b r ∧
    (∀ q ∈ topK (negValuesFlat b) (top_k_count b r),
        ∀ q2 ∈ (sortDesc (negValuesFlat b)).drop (top_k_count b r), q2 ≤ q) ∧
    (topK (negValuesFlat b) (top_k_count b r) ++
        (sortDesc (negValuesFlat b)).drop (top_k_count b r)).Perm (negValuesFlat b) ∧
    top_k_negative_loss b r =
      (topK (negValuesFlat b) (top_k_count b r)).sum / ((top_k_count b r : ℕ) : ℚ) := by
  obtain ⟨h1, h2, h3⟩ := topK_spec (negValuesFlat b) (top_k_count b r) hk
  exact ⟨h1, h2, h3, rfl⟩

/-- Witness for the amended C3 at the one-positive batch with ratio 1.5. -/
theorem c3_top_k_negative_witness :
    (topK (negValuesFlat bOnePos) (top_k_count bOnePos (3 / 2))).length =
      top_k_count bOnePos (3 / 2) ∧
    (∀ q ∈ topK (negValuesFlat bOnePos) (top_k_count bOnePos (3 / 2)),
        ∀ q2 ∈ (sortDesc (negValuesFlat bOnePos)).drop (top_k_count bOnePos (3 / 2)),
          q2 ≤ q) ∧
    (topK (negValuesFlat bOnePos) (top_k_count bOnePos (3 / 2)) ++
        (sortDesc (negValuesFlat bOnePos)).drop (top_k_count bOnePos (3 / 2))).Perm
      (negValuesFlat bOnePos) ∧
    top_k_negative_loss bOnePos (3 / 2) =
      (topK (negValuesFlat bOnePos) (top_k_count bOnePos (3 / 2))).sum /
        ((top_k_count bOnePos (3 / 2) : ℕ) : ℚ) := by
  apply c3_top_k_negative_amended bOnePos (3 / 2)
  · norm_num [np, num_positives, tfSum2, bOnePos]
  · have h1 : top_k_count bOnePos (3 / 2) = 1 := by
      norm_num [top_k_count, truncQ, np, num_positives, tfSum2, bOnePos]
    have h2 : (negValuesFlat bOnePos).length = 2 := by
      norm_num [negValuesFlat, top_k_neg_values, hadamard2, complement2, bOnePos]
    omega

/-- C4 (counterexample): `bScan` has `num_positives = 1` and `batch_size = 2`;
with ratio 3 the code truncates `(num_positives * r) / batch_size = 1.5` to a
per-row count of `1` (the claim's `round(1.5)` is `2`), selects `2` values in
total, and divides by `num_positives * r = 3` — which is not the total
selected count `2` — producing `8/3` instead of the claim's `8/2`. -/
theorem c4_scan_counterexample :
    np bScan = 1 ∧ batch_sz bScan = 2 ∧
    scan_per_row_count bScan 3 = 1 ∧
    specRound (np bScan * 3 / (batch_sz bScan : ℚ)) = 2 ∧
    ((scan_neg_values bScan).map fun row =>
        (topK row (scan_per_row_count bScan 3)).length).sum = 2 ∧
    scan_num_negatives bScan 3 = 3 ∧ ((2 : ℚ) ≠ 3) ∧
    scan_negative_loss bScan 3 = 8 / 3 := by
  have hnp : np bScan = 1 := by norm_num [np, num_positives, tfSum2, bScan]
  have hvals : scan_neg_values bScan = [[0, 3], [4, 5]] := by
    norm_num [scan_neg_values, hadamard2, complement2, bScan]
  have hB : batch_sz bScan = 2 := by norm_num [batch_sz, bScan]
  have hcnt : scan_per_row_count bScan 3 = 1 := by
    norm_num [scan_per_row_count, scan_num_negatives, truncQ, hnp, hB]
  refine ⟨hnp, hB, hcnt, ?_, ?_, ?_, by norm_num, ?_⟩
  · rw [hnp, hB]
    norm_num [specRound, truncQ]
    decide
  · rw [hvals, hcnt]
    norm_num [topK, sortDesc, List.insertionSort, List.orderedInsert]
  · rw [scan_num_negatives, hnp]
    norm_num
  · rw [scan_negative_loss, hvals, hcnt, scan_num_negatives, hnp]
    norm_num [topK, sortDesc, List.insertionSort, List.orderedInsert]

/-- C4 (amended): for every batch with `num_positives ≥ 1`, positive batch
size and per-row count `t = int((num_positives * r) / batch_size)`
(truncation, not `round`) at most each row's length, the scan variant
independently selects within each batch element the `t` largest negative
values of that element (per-row, not globally), sums all selected values and
divides by `num_positives * r` — which can differ from the total selected
count `batch_size * t`.  On `bScan` with ratio `2` the scan loss is `4` while
the top-k loss is `9/2`, exhibiting the per-sample/global difference at equal
total positive count. -/
theorem c4_scan_negative_amended (b : LossBatch) (r : ℚ) (hnp : 1 ≤ np b)
    (hB : 0 < batch_sz b)
    (ht : ∀ row ∈ scan_neg_values b, scan_per_row_count b r ≤ row.length) :
    scan_negative_loss b r =
      ((scan_neg_values b).map fun row =>
          (topK row (scan_per_row_count b r)).sum).sum / (np b * r) ∧
    (∀ row ∈ scan_neg_values b,
        (topK row (scan_per_row_count b r)).length = scan_per_row_count b r ∧
        (∀ q ∈ topK row (scan_per_row_count b r),
            ∀ q2 ∈ (sortDesc row).drop (scan_per_row_count b r), q2 ≤ q) ∧
        (topK row (scan_per_row_count b r) ++
            (sortDesc row).drop (scan_per_row_count b r)).Perm row) ∧
    scan_negative_loss bScan 2 = 4 ∧ top_k_negative_loss bScan 2 = 9 / 2 ∧
    ((4 : ℚ) ≠ 9 / 2) := by
  refine ⟨rfl, ?_, ?_, ?_, by norm_num⟩
  · intro row hrow
    exact topK_spec row (scan_per_row_count b r) (ht row hrow)
  · have hnp2 : np bScan = 1 := by norm_num [np, num_positives, tfSum2, bScan]
    have hvals : scan_neg_values bScan = [[0, 3], [4, 5]] := by
      norm_num [scan_neg_values, hadamard2, complement2, bScan]
    have hB2 : batch_sz bScan = 2 := by norm_num [batch_sz, bScan]
    have hcnt : scan_per_row_count bScan 2 = 1 := by
      norm_num [scan_per_row_count, scan_num_negatives, truncQ, hnp2, hB2]
    rw [scan_negative_loss, hvals, hcnt, scan_num_negatives, hnp2]
    norm_num [topK, sortDesc, List.insertionSort, List.orderedInsert]
  · have hnp2 : np bScan = 1 := by norm_num [np, num_positives, tfSum2, bScan]
    have hflat : negValuesFlat bScan = [0, 3, 4, 5] := by
      norm_num [negValuesFlat, top_k_neg_values, hadamard2, complement2, bScan]
    have hk : top_k_count bScan 2 = 2 := by
      norm_num [top_k_count, truncQ, hnp2]
      decide
    rw [top_k_negative_loss, hflat, hk]
    norm_num [topK, sortDesc, List.insertionSort, List.orderedInsert]

/-- Witness for the amended C4 at the two-row batch with ratio 3. -/
theorem c4_scan_negative_witness :
    scan_negative_loss bScan 3 =
      ((scan_neg_values bScan).map fun row =>
          (topK row (scan_per_row_count bScan 3)).sum).sum / (np bScan * 3) ∧
    (∀ row ∈ scan_neg_values bScan,
        (topK row (scan_per_row_count bScan 3)).length = scan_per_row_count bScan 3 ∧
        (∀ q ∈ topK row (scan_per_row_count bScan 3),
            ∀ q2 ∈ (sortDesc row).drop (scan_per_row_count bScan 3), q2 ≤ q) ∧
        (topK row (scan_per_row_count bScan 3) ++
            (sortDesc row).drop (scan_per_row_count bScan 3)).Perm row) ∧
    scan_negative_loss bScan 2 = 4 ∧ top_k_negative_loss bScan 2 = 9 / 2 ∧
    ((4 : ℚ) ≠ 9 / 2) := by
  apply c4_scan_negative_amended bScan 3
  · norm_num [np, num_positives, tfSum2, bScan]
  · norm_num [batch_sz, bScan]
  · have hvals : scan_neg_values bScan = [[0, 3], [4, 5]] := by
      norm_num [scan_neg_values, hadamard2, complement2, bScan]
    have hcnt : scan_per_row_count bScan 3 = 1 := by
      norm_num [scan_per_row_count, scan_num_negatives, truncQ, np, num_positives,
        tfSum2, batch_sz, bScan]
    rw [hvals, hcnt]
    decide

/-- C7: mining-strategy state machine.  (1) On the first training call (from
the freshly constructed state) the loss graph is built exactly once: the build
flag flips to `true`, the loss-graph identity is created, the optimizer is
bound and its accumulators initialized, and the new train op is returned.
(2) Every later call with the same optimizer identity returns the cached train
op and changes nothing.  (3) A call with a different optimizer identity
rebuilds only the minimization op against the unchanged loss graph —
re-initializing that optimizer's accumulators — while the build flags and the
loss-graph identity stay as they were. -/
theorem c7_mining_state_machine :
    (∀ opt : ℕ, minimize_loss_step initialTrainState opt =
        (⟨true, true, true, 1, some opt, some (opt, 1), 1⟩, some (opt, 1))) ∧
    (∀ (st : TrainState) (opt : ℕ), st.setForTraining = true →
        st.trainingVarsReady = true → st.lossBuilt = true → st.optimizer = some opt →
        minimize_loss_step st opt = (st, st.trainOp)) ∧
    (∀ (st : TrainState) (opt o2 : ℕ), st.setForTraining = true →
        st.trainingVarsReady = true → st.lossBuilt = true → st.optimizer = some o2 →
        o2 ≠ opt →
        minimize_loss_step st opt =
          ({ st with
              optimizer := some opt
              trainOp := some (opt, st.lossGraphVersion)
              optInitCount := st.optInitCount + 1 }, some (opt, st.lossGraphVersion))) := by
  refine ⟨?_, ?_, ?_⟩
  · intro opt
    simp [minimize_loss_step, initialTrainState, prepare_training_graph]
  · intro st opt h1 h2 h3 h4
    simp [minimize_loss_step, h1, h2, h3, h4]
  · intro st opt o2 h1 h2 h3 h4 h5
    simp [minimize_loss_step, h1, h2, h3, h4, h5]

/-- Witness for C7: build on first call, cached call with the same optimizer,
rebuild of only the train op on an optimizer change. -/
theorem c7_mining_state_machine_witness :
    minimize_loss_step initialTrainState 1 =
      (⟨true, true, true, 1, some 1, some (1, 1), 1⟩, some (1, 1)) ∧
    minimize_loss_step ⟨true, true, true, 1, some 1, some (1, 1), 1⟩ 1 =
      (⟨true, true, true, 1, some 1, some (1, 1), 1⟩, some (1, 1)) ∧
    minimize_loss_step ⟨true, true, true, 1, some 1, some (1, 1), 1⟩ 2 =
      (⟨true, true, true, 1, some 2, some (2, 1), 2⟩, some (2, 1)) := by
  refine ⟨c7_mining_state_machine.1 1, ?_, ?_⟩
  · exact c7_mining_state_machine.2.1 ⟨true, true, true, 1, some 1, some (1, 1), 1⟩ 1
      rfl rfl rfl rfl
  · have h := c7_mining_state_machine.2.2 ⟨true, true, true, 1, some 1, some (1, 1), 1⟩ 2 1
      rfl rfl rfl rfl (by decide)
    simpa using h

theorem runBatches_all_caught (bs : List BatchRun) (acc : EpochAcc) (att : List ℕ)
    (idx : ℕ)
    (h : ∀ e : PyExc, BatchRun.raises e ∈ bs → e.isExceptionInstance = true) :
    runBatches bs acc att idx =
      (Except.ok (emaFold acc (okLosses bs)), att ++ List.range' idx bs.length) := by
  induction bs generalizing acc att idx with
  | nil => simp [runBatches, emaFold, okLosses]
  | cons b rest ih =>
    cases b with
    | ok bt bf bl =>
      rw [runBatches, ih (emaStep acc bt bf bl) (att ++ [idx]) (idx + 1)
        (fun e he => h e (by simp [he]))]
      simp [okLosses, emaFold, List.range'_succ, List.length_cons]
    | raises e =>
      have he : e.isExceptionInstance = true := h e (by simp)
      rw [runBatches]
      simp only [caughtByExceptException, he, exIsKeyboardInterruptClass, if_true,
        if_false, Bool.false_eq_true, ite_false, ite_true]
      rw [ih acc (att ++ [idx]) (idx + 1) (fun e2 he2 => h e2 (by simp [he2]))]
      simp [okLosses, List.range'_succ, List.length_cons]

theorem runBatches_uncaught (pre : List BatchRun) (e : PyExc) (post : List BatchRun)
    (acc : EpochAcc) (att : List ℕ) (idx : ℕ)
    (hpre : ∀ x ∈ pre, isOkBatch x = true) (he : e.isExceptionInstance = false) :
    runBatches (pre ++ BatchRun.raises e :: post) acc att idx =
      (Except.error e, att ++ List.range' idx (pre.length + 1)) := by
  induction pre generalizing acc att idx with
  | nil =>
    rw [List.nil_append, runBatches]
    simp [caughtByExceptException, he, List.range'_succ]
  | cons x pre2 ih =>
    cases x with
    | ok bt bf bl =>
      rw [List.cons_append, runBatches, ih (emaStep acc bt bf bl) (att ++ [idx]) (idx + 1)
        (fun y hy => hpre y (by simp [hy]))]
      simp [List.range'_succ, List.length_cons]
    | raises e2 =>
      exact absurd (hpre (BatchRun.raises e2) (by simp)) (by simp [isOkBatch])

/-- C8 (counterexample): a batch raising `KeyboardInterrupt` (not an
`Exception` instance) is not caught by the batch-level `except Exception`
handler: in a one-epoch run whose first batch raises it, the second batch is
never attempted, so the failing batch is not "skipped with the loop
proceeding to the next batch" as the claim states. -/
theorem c8_batch_containment_counterexample :
    (fit_run epochsKI).2 = [(0, 0)] ∧ ((0, 1) : ℕ × ℕ) ∉ (fit_run epochsKI).2 := by
  decide

/-- C8 (amended): per-batch fault containment holds for every exception that
is an instance of `Exception`: such a failure is caught, the batch's losses
do not enter the running averages, and the loop proceeds to the next batch; a
run all of whose failures are `Exception` instances attempts every batch and
averages exactly the successful ones.  A batch raising a `BaseException`
outside `Exception` (e.g. `KeyboardInterrupt`) is instead uncaught and aborts
the remaining batches — yet even that is never fatal: `fit` still returns its
history dictionary. -/
theorem c8_batch_containment_amended :
    (∀ (e : PyExc) (rest : List BatchRun) (acc : EpochAcc) (att : List ℕ) (idx : ℕ),
        e.isExceptionInstance = true →
        runBatches (BatchRun.raises e :: rest) acc att idx =
          runBatches rest acc (att ++ [idx]) (idx + 1)) ∧
    (∀ bs : List BatchRun,
        (∀ e : PyExc, BatchRun.raises e ∈ bs → e.isExceptionInstance = true) →
        runBatches bs ⟨0, 0, 0⟩ [] 0 =
          (Except.ok (emaFold ⟨0, 0, 0⟩ (okLosses bs)), List.range bs.length)) ∧
    (∀ (pre : List BatchRun) (e : PyExc) (post : List BatchRun),
        (∀ x ∈ pre, isOkBatch x = true) → e.isExceptionInstance = false →
        runBatches (pre ++ BatchRun.raises e :: post) ⟨0, 0, 0⟩ [] 0 =
          (Except.error e, List.range (pre.length + 1))) ∧
    (∀ eps : List (List BatchRun), ∃ h : FitHistory,
        (fit_run eps).1 = FitOutcome.returned h) := by
  refine ⟨?_, ?_, ?_, ?_⟩
  · intro e rest acc att idx he
    rw [runBatches]
    simp [caughtByExceptException, he, exIsKeyboardInterruptClass]
  · intro bs h
    rw [runBatches_all_caught bs ⟨0, 0, 0⟩ [] 0 h, List.nil_append, List.range_eq_range']
  · intro pre e post hpre he
    rw [runBatches_uncaught pre e post ⟨0, 0, 0⟩ [] 0 hpre he, List.nil_append,
      List.range_eq_range']
  · intro eps
    rcases hre : runEpochs eps 0 ⟨[], [], []⟩ [] with ⟨hist, att, exc⟩
    exact ⟨hist, by simp [fit_run, hre]⟩

/-- Witness for the amended C8: a skipped `ValueError` batch followed by a
successful batch, and a `KeyboardInterrupt` stopping the loop. -/
theorem c8_batch_containment_witness :
    runBatches [BatchRun.raises ⟨"ValueError", true⟩, BatchRun.ok 1 1 1] ⟨0, 0, 0⟩ [] 0 =
      (Except.ok (emaFold ⟨0, 0, 0⟩
        (okLosses [BatchRun.raises ⟨"ValueError", true⟩, BatchRun.ok 1 1 1])),
       List.range 2) ∧
    runBatches ([] ++ BatchRun.raises ⟨"KeyboardInterrupt", false⟩ ::
        [BatchRun.ok 1 1 1]) ⟨0, 0, 0⟩ [] 0 =
      (Except.error ⟨"KeyboardInterrupt", false⟩, List.range 1) := by
  constructor
  · apply c8_batch_containment_amended.2.1
      [BatchRun.raises ⟨"ValueError", true⟩, BatchRun.ok 1 1 1]
    intro e he
    simp at he
    subst he
    rfl
  · exact c8_batch_containment_amended.2.2.1 [] ⟨"KeyboardInterrupt", false⟩
      [BatchRun.ok 1 1 1] (by decide) rfl

theorem runEpochs_all_caught (eps : List (List BatchRun)) (eIdx : ℕ) (hist : FitHistory)
    (att : List (ℕ × ℕ))
    (h : ∀ ep ∈ eps, ∀ e : PyExc, BatchRun.raises e ∈ ep → e.isExceptionInstance = true) :
    (runEpochs eps eIdx hist att).2.2 = none ∧
    (runEpochs eps eIdx hist att).1.totalLosses.length =
      hist.totalLosses.length + eps.length ∧
    (runEpochs eps eIdx hist att).1.focalLosses.length =
      hist.focalLosses.length + eps.length ∧
    (runEpochs eps eIdx hist att).1.locLosses.length =
      hist.locLosses.length + eps.length := by
  induction eps generalizing eIdx hist att with
  | nil => simp [runEpochs]
  | cons ep rest ih =>
    have hstep : runEpochs (ep :: rest) eIdx hist att =
        runEpochs rest (eIdx + 1) (appendEpoch hist (emaFold ⟨0, 0, 0⟩ (okLosses ep)))
          (att ++ (List.range' 0 ep.length).map fun j => (eIdx, j)) := by
      rw [runEpochs, runBatches_all_caught ep ⟨0, 0, 0⟩ [] 0 (h ep (by simp))]
      rfl
    rw [hstep]
    have ih2 := ih (eIdx + 1) (appendEpoch hist (emaFold ⟨0, 0, 0⟩ (okLosses ep)))
      (att ++ (List.range' 0 ep.length).map fun j => (eIdx, j))
      (fun ep2 hm => h ep2 (List.mem_cons_of_mem _ hm))
    refine ⟨ih2.1, ?_, ?_, ?_⟩
    · rw [ih2.2.1]
      simp [appendEpoch]
      omega
    · rw [ih2.2.2.1]
      simp [appendEpoch]
      omega
    · rw [ih2.2.2.2]
      simp [appendEpoch]
      omega

/-- C10 (counterexample): a batch raising `KeyboardInterrupt` is not treated
as a skippable batch failure: in a two-epoch run whose first epoch's first
batch raises it, the second batch is never attempted and the second epoch
never runs — the method still returns (empty) histories rather than
propagating, but the failure is an abort, not a skip. -/
theorem c10_ki_not_skipped_counterexample :
    (fit_run epochsKI2).2 = [(0, 0)] ∧ ((0, 1) : ℕ × ℕ) ∉ (fit_run epochsKI2).2 ∧
    (fit_run epochsKI2).1 = FitOutcome.returned ⟨[], [], []⟩ := by
  decide

/-- C10 (amended): once the epoch loop is reached, `fit` always returns the
loss-history dictionary and never propagates any exception (the `finally`
block's `return` suppresses anything escaping the epoch loop, and the
`ex is KeyboardInterrupt` guard is never true so the batch handler never
re-raises).  If every batch failure is an `Exception` instance, every epoch
completes and contributes exactly one entry per loss component.  But a
`BaseException` outside `Exception` (e.g. `KeyboardInterrupt`) is *not*
skipped by the batch-level handler: it escapes both handlers, aborting the
remaining batches and epochs, and only the `finally` return keeps it from
propagating. -/
theorem c10_fit_return_amended :
    (∀ eps : List (List BatchRun), ∃ h : FitHistory,
        (fit_run eps).1 = FitOutcome.returned h) ∧
    (∀ eps : List (List BatchRun),
        (∀ ep ∈ eps, ∀ e : PyExc, BatchRun.raises e ∈ ep → e.isExceptionInstance = true) →
        ∃ h : FitHistory, fit_run eps = (FitOutcome.returned h, (fit_run eps).2) ∧
          h.totalLosses.length = eps.length ∧ h.focalLosses.length = eps.length ∧
          h.locLosses.length = eps.length) ∧
    (∀ (pre : List BatchRun) (e : PyExc) (post : List BatchRun)
        (rest : List (List BatchRun)),
        (∀ x ∈ pre, isOkBatch x = true) → e.isExceptionInstance = false →
        fit_run ((pre ++ BatchRun.raises e :: post) :: rest) =
          (FitOutcome.returned ⟨[], [], []⟩,
           (List.range' 0 (pre.length + 1)).map fun j => ((0 : ℕ), j))) := by
  refine ⟨?_, ?_, ?_⟩
  · intro eps
    rcases hre : runEpochs eps 0 ⟨[], [], []⟩ [] with ⟨hist, att2, exc⟩
    exact ⟨hist, by simp [fit_run, hre]⟩
  · intro eps h
    have hlen := runEpochs_all_caught eps 0 ⟨[], [], []⟩ [] h
    rcases hre : runEpochs eps 0 ⟨[], [], []⟩ [] with ⟨hist, att2, exc⟩
    rw [hre] at hlen
    refine ⟨hist, by simp [fit_run, hre], ?_, ?_, ?_⟩
    · simpa using hlen.2.1
    · simpa using hlen.2.2.1
    · simpa using hlen.2.2.2
  · intro pre e post rest hpre he
    have h1 := runBatches_uncaught pre e post ⟨0, 0, 0⟩ [] 0 hpre he
    rw [fit_run, runEpochs, h1]
    simp [caughtByExceptException, he]

/-- Witness for the amended C10: a clean one-epoch run and a `SystemExit`
abort. -/
theorem c10_fit_return_witness :
    (∃ h : FitHistory, fit_run [[BatchRun.ok 1 2 3]] =
        (FitOutcome.returned h, (fit_run [[BatchRun.ok 1 2 3]]).2) ∧
        h.totalLosses.length = 1 ∧ h.focalLosses.length = 1 ∧
        h.locLosses.length = 1) ∧
    fit_run [[BatchRun.raises ⟨"SystemExit", false⟩]] =
      (FitOutcome.returned ⟨[], [], []⟩,
       (List.range' 0 (0 + 1)).map fun j => ((0 : ℕ), j)) := by
  constructor
  · have h := c10_fit_return_amended.2.1 [[BatchRun.ok 1 2 3]] (by
      intro ep hep e he
      simp at hep
      subst hep
      simp at he)
    simpa using h
  · have h := c10_fit_return_amended.2.2 [] ⟨"SystemExit", false⟩ [] [] (by simp) rfl
    simpa using h

/-- C9 (counterexample): calling `reset` with the invalid objective name
`"bogus"` on a balancer in a valid state does not leave the object in its
previous valid state: the cardinalities variable and scaled vectors are
replaced and the bound optimizer is dropped before (and regardless of) the
objective-name check; only `objective` keeps its previous value. -/
theorem c9_reset_atomicity_counterexample :
    balancer_reset balancer0 [3] "bogus" ≠ balancer0 ∧
    (balancer_reset balancer0 [3] "bogus").cardinalities = [3] ∧
    balancer0.cardinalities = [2] ∧
    (balancer_reset balancer0 [3] "bogus").optimizer = none ∧
    balancer0.optimizer = some 7 ∧
    (balancer_reset balancer0 [3] "bogus").objective = balancer0.objective := by
  have hr : balancer_reset balancer0 [3] "bogus" =
      { balancer0 with
          cardinalities := [3]
          scaledHcvgs := matVecMul balancer0.vecs [3]
          optimizer := none } := by
    rw [balancer_reset, build_objective, if_neg (by decide), if_neg (by decide)]
  refine ⟨?_, by rw [hr], rfl, by rw [hr], rfl, by rw [hr]⟩
  intro heq
  rw [hr] at heq
  have hc := congrArg BalancerState.cardinalities heq
  norm_num [balancer0] at hc

/-- C9 (amended): on an objective name other than `"alpha"` and `"geo"`, the
error is only reported and `objective` retains its previous value, but the
call is not atomic: `cardinalities` and `scaled_hcvgs` are updated to the new
`initial_c` and the bound optimizer is reset to `None`, so the object is left
partially updated rather than in its previous state.  (At construction the
same path leaves the fresh object without any built objective.) -/
theorem c9_reset_partial_update_amended (s : BalancerState) (c : List ℚ)
    (name : String) (h1 : name ≠ "alpha") (h2 : name ≠ "geo") :
    balancer_reset s c name =
      { s with
          cardinalities := c
          scaledHcvgs := matVecMul s.vecs c
          optimizer := none } := by
  rw [balancer_reset, build_objective, if_neg h1, if_neg h2]

/-- Witness for the amended C9 at the concrete balancer. -/
theorem c9_reset_partial_update_witness :
    balancer_reset balancer0 [3] "bogus" =
      { balancer0 with
          cardinalities := [3]
          scaledHcvgs := matVecMul balancer0.vecs [3]
          optimizer := none } :=
  c9_reset_partial_update_amended balancer0 [3] "bogus" (by decide) (by decide)
